import Mathlib

/-!
Verification of the azdo-harvest core against its specification.

The development shallowly embeds the pure logic of the repository:
- `models.py` : the `FileResult` record, its download URL / parameter
  derivation and its textual form;
- `search.py` : the mapping of JSON search hits into result records;
- `downloader.py` : destination-path resolution and the sequential batch
  wrapper with its record-keyed result dictionary;
- `cli.py` : the per-file download step of the parallel orchestrator
  (content hashing is abstracted as an opaque hex-digest function) and the
  collection of outcome tuples.

HTTP transport is modelled as an oracle `fetch : FileResult → Except String
String` returning either the response body or the error message; filesystem
writes are ignored (only the computed paths matter to the claims).
-/

namespace AzdoHarvest

/-! ## models.py -/

/-- Embedding of `FileResult` (src/azdo_harvest/models.py). -/
structure FileResult where
  repository : String
  repository_id : Option String
  project : String
  project_id : String
  filepath : String
  branch : String
  commit_id : Option String
  organization : String
  filename : String
deriving DecidableEq, Repr

/-- Python `self.repository_id or self.repository`: the repository id is
used only when it is truthy (non-null and non-empty). -/
def repoIdentifier (r : FileResult) : String :=
  match r.repository_id with
  | none => r.repository
  | some s => if s = "" then r.repository else s

/-- Embedding of `FileResult.get_download_url`; the string pieces mirror the
f-string in the source. -/
def get_download_url (r : FileResult) (api_version : String) : String :=
  "https://dev.azure.com/" ++ r.organization ++ "/" ++ r.project ++ "/" ++
    "_apis/git/repositories/" ++ repoIdentifier r ++ "/items" ++
    "?path=" ++ r.filepath ++
    "&versionDescriptor.version=" ++ r.branch ++
    "&includeContent=true" ++
    "&api-version=" ++ api_version

/-- Embedding of `FileResult.get_download_params` (the dict, as an
association list in the source's key order). -/
def get_download_params (r : FileResult) : List (String × String) :=
  [("path", r.filepath),
   ("versionDescriptor.version", r.branch),
   ("includeContent", "true"),
   ("api-version", "7.1")]

/-- Embedding of `FileResult.__str__`. -/
def fileResultStr (r : FileResult) : String :=
  r.repository ++ ":" ++ r.filepath ++ " (branch: " ++ r.branch ++ ")"

/-- Spec-side variant of the repository identifier, following the claim's
words: `repository_id` whenever it is non-null, the repository name only
when it is null.  Compared against `repoIdentifier`, which embeds the code. -/
def claimRepoIdentifier (r : FileResult) : String :=
  match r.repository_id with
  | none => r.repository
  | some s => s

/-! ## search.py : JSON hits and their mapping into records

A JSON object field that is absent is modelled as `none`; `.get(k, d)`
becomes `Option.getD`. -/

/-- The `repository` sub-object of a search hit. -/
structure RepoJson where
  name : Option String
  id : Option String
  remoteUrl : Option String
deriving DecidableEq, Repr

/-- The `project` sub-object of a search hit. -/
structure ProjJson where
  name : Option String
  id : Option String
deriving DecidableEq, Repr

/-- One entry of a hit's `versions` list. -/
structure VersionJson where
  branchName : Option String
  changeId : Option String
deriving DecidableEq, Repr

/-- A JSON hit of the code-search response (`data['results'][i]`). -/
structure SearchHit where
  repository : Option RepoJson
  project : Option ProjJson
  path : Option String
  fileName : Option String
  versions : List VersionJson
deriving DecidableEq, Repr

/-- The `repo_info` dict built by `_search_repositories` for one hit. -/
structure RepoInfo where
  name : String
  project : String
  url : String
deriving DecidableEq, Repr

/-- Embedding of the per-hit mapping in
`AzureDevOpsSearcher._search_repositories`:
`result.get('repository', \x7b\x7d).get('name', 'N/A')` and friends. -/
def parseRepoHit (h : SearchHit) : RepoInfo :=
  { name := ((h.repository).bind RepoJson.name).getD "N/A"
    project := ((h.project).bind ProjJson.name).getD "N/A"
    url := ((h.repository).bind RepoJson.remoteUrl).getD "N/A" }

/-- Embedding of the result loop of `_search_repositories`. -/
def search_repositories_parse (hits : List SearchHit) : List RepoInfo :=
  hits.map parseRepoHit

/-- Embedding of the per-hit mapping in `AzureDevOpsSearcher._search_code`. -/
def parseCodeHit (organization : String) (h : SearchHit) : FileResult :=
  let vb : String × Option String :=
    match h.versions with
    | [] => ("main", none)
    | v :: _ => (v.branchName.getD "main", v.changeId)
  { repository := ((h.repository).bind RepoJson.name).getD "N/A"
    repository_id := (h.repository).bind RepoJson.id
    project := ((h.project).bind ProjJson.name).getD "N/A"
    project_id := ((h.project).bind ProjJson.id).getD
      "00000000-0000-0000-0000-000000000000"
    filepath := (h.path).getD "N/A"
    branch := vb.1
    commit_id := vb.2
    organization := organization
    filename := (h.fileName).getD "N/A" }

/-- Embedding of the result loop of `_search_code`. -/
def search_code_parse (organization : String) (hits : List SearchHit) :
    List FileResult :=
  hits.map (parseCodeHit organization)

/-! ## downloader.py : destination paths and the sequential batch -/

/-- Python `s.lstrip('/')`: drop every leading slash. -/
def lstripSlashes (s : String) : String :=
  ((s.toList).dropWhile (fun c => c = '/')).asString

/-- POSIX `pathlib` join for the components the code uses: an absolute
second component replaces the first, an empty component is ignored. -/
def joinPath (a b : String) : String :=
  if b = "" then a
  else if b.toList.head? = some '/' then b
  else a ++ "/" ++ b

/-- `Path(output_dir) if output_dir else Path.cwd()` — the output directory
argument is used when truthy, else the current working directory. -/
def basePath (cwd : String) (output_dir : Option String) : String :=
  match output_dir with
  | some d => if d = "" then cwd else d
  | none => cwd

/-- The destination path computed by `FileDownloader.download_file`
(src/azdo_harvest/downloader.py, lines 52-64): custom filename when truthy,
else repository-structure-preserving path, else bare filename. -/
def download_file_path (cwd : String) (output_dir : Option String)
    (preserve_structure : Bool) (custom_filename : Option String)
    (r : FileResult) : String :=
  let base := basePath cwd output_dir
  let noCustom :=
    if preserve_structure then
      joinPath (joinPath base r.repository) (lstripSlashes r.filepath)
    else joinPath base r.filename
  match custom_filename with
  | some c => if c = "" then noCustom else joinPath base c
  | none => noCustom

/-- Embedding of `FileDownloader.download_file`: the HTTP GET is the oracle
`fetch`; a transport error is wrapped into the source's message; on success
the computed destination path is returned. -/
def download_file (fetch : FileResult → Except String String) (cwd : String)
    (output_dir : Option String) (preserve_structure : Bool)
    (custom_filename : Option String) (r : FileResult) :
    Except String String :=
  match fetch r with
  | Except.error e =>
      Except.error ("Failed to download " ++ r.filepath ++ ": " ++ e)
  | Except.ok _content =>
      Except.ok (download_file_path cwd output_dir preserve_structure
        custom_filename r)

/-! A Python dict with string keys, as an insertion-ordered association
list: assignment updates in place when the key exists, else appends. -/

/-- Key membership in the dict. -/
def hasKey : List (String × Option String) → String → Bool
  | [], _ => false
  | p :: t, k => p.1 == k || hasKey t k

/-- `d[k] = v` on a Python dict: update the entry in place when the key is
present, else append a new entry. -/
def setKey : List (String × Option String) → String → Option String →
    List (String × Option String)
  | [], k, v => [(k, v)]
  | p :: t, k, v => if p.1 == k then (k, v) :: t else p :: setKey t k v

/-- Dict lookup, `none` when the key is absent. -/
def getValue : List (String × Option String) → String → Option (Option String)
  | [], _ => none
  | p :: t, k => if p.1 == k then some p.2 else getValue t k

/-- The key/value pair one iteration of `FileDownloader.download_files`
stores: key `str(file_result)`, value the downloaded path, or null when the
per-file download raised. -/
def downloadEntry (fetch : FileResult → Except String String) (cwd : String)
    (output_dir : Option String) (preserve_structure : Bool)
    (r : FileResult) : String × Option String :=
  (fileResultStr r,
   match download_file fetch cwd output_dir preserve_structure none r with
   | Except.ok p => some p
   | Except.error _ => none)

/-- Embedding of `FileDownloader.download_files`: fold the per-record dict
assignments over the input list, starting from the empty dict. -/
def download_files (fetch : FileResult → Except String String) (cwd : String)
    (output_dir : Option String) (preserve_structure : Bool)
    (records : List FileResult) : List (String × Option String) :=
  records.foldl
    (fun d r =>
      let e := downloadEntry fetch cwd output_dir preserve_structure r
      setKey d e.1 e.2)
    []

/-! ## cli.py : the parallel download orchestrator

The SHA-256 hex digest is abstracted as an opaque function
`sha256hex : String → String`; the orchestrator only ever truncates it. -/

/-- Python `s.replace('/', '_')`. -/
def replaceSlashes (s : String) : String :=
  ((s.toList).map (fun c => if c = '/' then '_' else c)).asString

/-- Whether a character is not the dot separator. -/
def notDot (c : Char) : Bool := ¬ (c = '.')

/-- Python `s.rsplit('.', 1)` specialised to a dot separator: `none` when
`s` has no dot (the source guards with `'.' in filename`), otherwise the
part before the last dot and the part after it. -/
def rsplitDot (s : String) : Option (String × String) :=
  let rev := s.toList.reverse
  match rev.dropWhile notDot with
  | [] => none
  | _ :: nameRev =>
      some (nameRev.reverse.asString,
            (rev.takeWhile notDot).reverse.asString)

/-- The collision-resistant destination filename built by
`download_single_file` (src/azdo_harvest/cli.py, lines 196-208) from the
record and the 8-character hash prefix. -/
def custom_filename_for (hashPref : String) (r : FileResult) : String :=
  let safe_repo := replaceSlashes r.repository
  let filename := replaceSlashes r.filename
  match rsplitDot filename with
  | some (name_part, ext_part) =>
      safe_repo ++ "__" ++ name_part ++ "__" ++ hashPref ++ "." ++ ext_part
  | none =>
      safe_repo ++ "__" ++ filename ++ "__" ++ hashPref

/-- An outcome tuple of the orchestrator:
(record, destination path or null, hash prefix or null, error or null). -/
abbrev Outcome := FileResult × Option String × Option String × Option String

/-- Embedding of `download_single_file` inside `download_files_parallel`:
fetch, hash, derive the filename, and return the success tuple, or the
failure tuple carrying the error message. -/
def download_single_file (fetch : FileResult → Except String String)
    (sha256hex : String → String) (output_dir : String) (r : FileResult) :
    Outcome :=
  match fetch r with
  | Except.error e => (r, none, none, some e)
  | Except.ok content =>
      let hashPref := (sha256hex content).take 8
      (r, some (joinPath output_dir (custom_filename_for hashPref r)),
       some hashPref, none)

/-- The `downloaded.append(...)` step: an outcome whose error slot is null
contributes `(record, path, hash)`. -/
def okOutcome : Outcome → Option (FileResult × Option String × Option String)
  | (fr, p, h, none) => some (fr, p, h)
  | (_, _, _, some _) => none

/-- The `failed.append(...)` step: an outcome with an error contributes
`(record, error)`. -/
def errOutcome : Outcome → Option (FileResult × String)
  | (fr, _, _, some e) => some (fr, e)
  | (_, _, _, none) => none

/-- Embedding of the collection loop of `download_files_parallel`: the
`order` list is the (nondeterministic) completion order of the futures;
each completed outcome is appended to `downloaded` when its error slot is
null and to `failed` otherwise. -/
def download_files_parallel (fetch : FileResult → Except String String)
    (sha256hex : String → String) (output_dir : String)
    (order : List FileResult) :
    List (FileResult × Option String × Option String) ×
      List (FileResult × String) :=
  let outs := order.map (download_single_file fetch sha256hex output_dir)
  (outs.filterMap okOutcome, outs.filterMap errOutcome)

/-! ## Spec-side formulations used for refinement comparisons -/

/-- The extension of a filename per the spec's words: the part after the
last dot. -/
def lastExtension (s : String) : String :=
  ((s.toList.reverse.takeWhile notDot).reverse).asString

/-- A filename without its last extension, per the spec's words: the part
before the last dot. -/
def withoutLastExtension (s : String) : String :=
  (((s.toList.reverse.dropWhile notDot).drop 1).reverse).asString

/-- The destination filename exactly as the claim words it: slashes are
replaced by underscores in the repository only, and the filename is split
at its last dot. -/
def claimDestFilename (repo file hashPref : String) : String :=
  if '.' ∈ file.toList then
    replaceSlashes repo ++ "__" ++ withoutLastExtension file ++ "__" ++
      hashPref ++ "." ++ lastExtension file
  else
    replaceSlashes repo ++ "__" ++ file ++ "__" ++ hashPref

/-! ## Shared helper lemmas -/

/-- `s` contains `sub` as a contiguous substring. -/
def containsStr (s sub : String) : Prop :=
  ∃ a b, s = a ++ sub ++ b

theorem append_split (s t u : String) (h : s ++ t = u) (b : String) :
    u ++ b = s ++ (t ++ b) := by
  rw [← h, String.append_assoc]

theorem length_setKey (d : List (String × Option String)) (k : String)
    (v : Option String) :
    (setKey d k v).length = if hasKey d k then d.length else d.length + 1 := by
  induction d with
  | nil => simp [setKey, hasKey]
  | cons p t ih =>
    by_cases hp : p.1 = k
    · simp [setKey, hasKey, hp]
    · simp [setKey, hasKey, hp, ih]
      by_cases ht : hasKey t k <;> simp [ht]

theorem hasKey_setKey_self (d : List (String × Option String)) (k : String)
    (v : Option String) : hasKey (setKey d k v) k = true := by
  induction d with
  | nil => simp [setKey, hasKey]
  | cons p t ih =>
    by_cases hp : p.1 = k
    · simp [setKey, hasKey, hp]
    · simp [setKey, hasKey, hp, ih]

theorem hasKey_setKey_mono (d : List (String × Option String))
    (k k' : String) (v : Option String) (h : hasKey d k' = true) :
    hasKey (setKey d k v) k' = true := by
  induction d with
  | nil => simp [hasKey] at h
  | cons p t ih =>
    simp only [hasKey, Bool.or_eq_true, beq_iff_eq] at h
    by_cases hp : p.1 = k
    · rcases h with h | h
      · simp [setKey, hasKey, hp, hp.symm.trans h]
      · simp [setKey, hasKey, hp, h]
    · rcases h with h | h
      · have hk : ¬ (k' = k) := fun hh => hp (h.trans hh)
        simp [setKey, hasKey, hp, h, hk]
      · simp [setKey, hasKey, hp, ih h]

theorem getValue_setKey_self (d : List (String × Option String)) (k : String)
    (v : Option String) : getValue (setKey d k v) k = some v := by
  induction d with
  | nil => simp [setKey, getValue]
  | cons p t ih =>
    by_cases hp : p.1 = k
    · simp [setKey, getValue, hp]
    · simp [setKey, getValue, hp, ih]

theorem getValue_setKey_other (d : List (String × Option String))
    (k k' : String) (v : Option String) (h : ¬ (k' = k)) :
    getValue (setKey d k' v) k = getValue d k := by
  induction d with
  | nil => simp [setKey, getValue, h]
  | cons p t ih =>
    by_cases hp : p.1 = k'
    · simp [setKey, getValue, hp, h]
    · simp [setKey, getValue, hp, ih]

/-- A dict built by folding `setKey` assignments over a list. -/
def dictFold (kf : α → String) (vf : α → Option String) (l : List α)
    (d : List (String × Option String)) : List (String × Option String) :=
  l.foldl (fun d x => setKey d (kf x) (vf x)) d

theorem dictFold_nil (kf : α → String) (vf : α → Option String) (d) :
    dictFold kf vf [] d = d := rfl

theorem dictFold_cons (kf : α → String) (vf : α → Option String) (x : α)
    (l : List α) (d) :
    dictFold kf vf (x :: l) d = dictFold kf vf l (setKey d (kf x) (vf x)) :=
  rfl

theorem dictFold_append (kf : α → String) (vf : α → Option String)
    (l₁ l₂ : List α) (d) :
    dictFold kf vf (l₁ ++ l₂) d = dictFold kf vf l₂ (dictFold kf vf l₁ d) :=
  List.foldl_append _ _ _ _

theorem dictFold_length_le (kf : α → String) (vf : α → Option String) :
    ∀ (l : List α) (d), (dictFold kf vf l d).length ≤ d.length + l.length := by
  intro l
  induction l with
  | nil => intro d; simp [dictFold_nil]
  | cons x t ih =>
    intro d
    rw [dictFold_cons]
    have h1 := ih (setKey d (kf x) (vf x))
    have h2 := length_setKey d (kf x) (vf x)
    simp only [List.length_cons]
    by_cases hk : hasKey d (kf x) <;> simp [hk] at h2 <;> omega

theorem dictFold_hasKey_mono (kf : α → String) (vf : α → Option String) :
    ∀ (l : List α) (d) (k : String), hasKey d k = true →
      hasKey (dictFold kf vf l d) k = true := by
  intro l
  induction l with
  | nil => intro d k h; simpa [dictFold_nil] using h
  | cons x t ih =>
    intro d k h
    rw [dictFold_cons]
    exact ih _ _ (hasKey_setKey_mono _ _ _ _ h)

theorem dictFold_hasKey_of_mem (kf : α → String) (vf : α → Option String) :
    ∀ (l : List α) (d) (x : α), x ∈ l →
      hasKey (dictFold kf vf l d) (kf x) = true := by
  intro l
  induction l with
  | nil => intro d x h; simp at h
  | cons y t ih =>
    intro d x h
    rw [dictFold_cons]
    rcases List.mem_cons.mp h with h | h
    · subst h
      exact dictFold_hasKey_mono kf vf t _ _ (hasKey_setKey_self _ _ _)
    · exact ih _ _ h

theorem dictFold_getValue_of_forall_ne (kf : α → String)
    (vf : α → Option String) :
    ∀ (l : List α) (d) (k : String), (∀ x ∈ l, ¬ (kf x = k)) →
      getValue (dictFold kf vf l d) k = getValue d k := by
  intro l
  induction l with
  | nil => intro d k _; simp [dictFold_nil]
  | cons x t ih =>
    intro d k h
    rw [dictFold_cons, ih _ _ (fun y hy => h y (List.mem_cons_of_mem _ hy))]
    exact getValue_setKey_other _ _ _ _ (h x (List.mem_cons_self _ _))

/-! ## Claim theorems -/

/-- C9: for every FileMatch record whose repository_id is the empty string
(a non-null value), `get_download_url` uses the repository name, not the
empty repository_id, as the repository identifier in the URL: the fallback
is decided by truthiness of repository_id, not only by its being null. -/
theorem c9_empty_repository_id_uses_name (r : FileResult) (v : String)
    (h : r.repository_id = some "") :
    repoIdentifier r = r.repository ∧
    get_download_url r v = get_download_url { r with repository_id := none } v := by
  have hid : repoIdentifier r = r.repository := by
    unfold repoIdentifier
    rw [h]
    simp
  refine ⟨hid, ?_⟩
  unfold get_download_url
  rw [hid]
  unfold repoIdentifier
  simp

/-- A record whose repository_id is present but empty. -/
def c9sample : FileResult :=
  ⟨"myrepo", some "", "proj", "pid", "/src/app.py", "main", none, "org",
   "app.py"⟩

theorem c9_witness :
    repoIdentifier c9sample = c9sample.repository ∧
    get_download_url c9sample "7.1" =
      get_download_url { c9sample with repository_id := none } "7.1" :=
  c9_empty_repository_id_uses_name c9sample "7.1" rfl

/-- C4: the repository search maps each hit's repository.name, project.name
and repository.remoteUrl into a result record, substituting the literal
string "N/A" for each of these fields that is missing from the hit. -/
theorem c4_repository_hit_mapping (hits : List SearchHit) (h : SearchHit) :
    search_repositories_parse hits = hits.map parseRepoHit ∧
    ((h.repository).bind RepoJson.name = none →
      (parseRepoHit h).name = "N/A") ∧
    (∀ s, (h.repository).bind RepoJson.name = some s →
      (parseRepoHit h).name = s) ∧
    ((h.project).bind ProjJson.name = none →
      (parseRepoHit h).project = "N/A") ∧
    (∀ s, (h.project).bind ProjJson.name = some s →
      (parseRepoHit h).project = s) ∧
    ((h.repository).bind RepoJson.remoteUrl = none →
      (parseRepoHit h).url = "N/A") ∧
    (∀ s, (h.repository).bind RepoJson.remoteUrl = some s →
      (parseRepoHit h).url = s) := by
  refine ⟨rfl, fun hh => ?_, fun s hh => ?_, fun hh => ?_, fun s hh => ?_,
    fun hh => ?_, fun s hh => ?_⟩
  all_goals simp [parseRepoHit, hh]

/-- A code-search hit with every optional field absent. -/
def c4hit : SearchHit := ⟨none, none, none, none, []⟩

theorem c4_witness :
    search_repositories_parse [c4hit] = [c4hit].map parseRepoHit ∧
    (parseRepoHit c4hit).name = "N/A" ∧
    (parseRepoHit c4hit).project = "N/A" ∧
    (parseRepoHit c4hit).url = "N/A" := by
  have h := c4_repository_hit_mapping [c4hit] c4hit
  exact ⟨h.1, h.2.1 rfl, h.2.2.2.1 rfl, h.2.2.2.2.2.1 rfl⟩

/-- C5: for every JSON code-search hit, the constructed FileMatch has
branch = versions[0].branchName when the versions list is non-empty and
"main" otherwise; commit_id = versions[0].changeId, or null when the
versions list is empty; each missing string field defaults to "N/A"; and a
missing project id defaults to the all-zero GUID string. -/
theorem c5_code_hit_defaults (org : String) (h : SearchHit) :
    (h.versions = [] → (parseCodeHit org h).branch = "main" ∧
      (parseCodeHit org h).commit_id = none) ∧
    (∀ v t, h.versions = v :: t →
      (∀ b, v.branchName = some b → (parseCodeHit org h).branch = b) ∧
      (parseCodeHit org h).commit_id = v.changeId) ∧
    ((h.repository).bind RepoJson.name = none →
      (parseCodeHit org h).repository = "N/A") ∧
    ((h.project).bind ProjJson.name = none →
      (parseCodeHit org h).project = "N/A") ∧
    (h.path = none → (parseCodeHit org h).filepath = "N/A") ∧
    (h.fileName = none → (parseCodeHit org h).filename = "N/A") ∧
    ((h.project).bind ProjJson.id = none →
      (parseCodeHit org h).project_id =
        "00000000-0000-0000-0000-000000000000") := by
  refine ⟨fun hv => ?_, fun v t hv => ⟨fun b hb => ?_, ?_⟩, fun hh => ?_,
    fun hh => ?_, fun hh => ?_, fun hh => ?_, fun hh => ?_⟩
  · simp [parseCodeHit, hv]
  · simp [parseCodeHit, hv, hb]
  · simp [parseCodeHit, hv]
  all_goals simp [parseCodeHit, hh]

/-- A code-search hit with every optional field absent. -/
def c5hitA : SearchHit := ⟨none, none, none, none, []⟩

/-- A code-search hit with one version entry. -/
def c5hit : SearchHit := ⟨none, none, none, none, [⟨some "dev", some "abc"⟩]⟩

theorem c5_witness :
    (parseCodeHit "org" c5hitA).branch = "main" ∧
    (parseCodeHit "org" c5hitA).commit_id = none ∧
    (parseCodeHit "org" c5hitA).project_id =
      "00000000-0000-0000-0000-000000000000" ∧
    (parseCodeHit "org" c5hitA).repository = "N/A" ∧
    (parseCodeHit "org" c5hit).branch = "dev" ∧
    (parseCodeHit "org" c5hit).commit_id = some "abc" := by
  have hA := c5_code_hit_defaults "org" c5hitA
  have hB := c5_code_hit_defaults "org" c5hit
  exact ⟨(hA.1 rfl).1, (hA.1 rfl).2, hA.2.2.2.2.2.2 rfl, hA.2.2.1 rfl,
    (hB.2.1 ⟨some "dev", some "abc"⟩ [] rfl).1 "dev" rfl,
    (hB.2.1 ⟨some "dev", some "abc"⟩ [] rfl).2⟩

/-- C7: for every FileMatch record and successful fetch, `download_file`
resolves the destination path with this precedence: custom filename first,
then the structure-preserving repository/filepath layout (leading slashes
of the filepath stripped), then the bare filename. -/
theorem c7_save_path_precedence
    (fetch : FileResult → Except String String) (cwd od : String)
    (preserve : Bool) (custom : Option String) (r : FileResult)
    (content : String) (hod : ¬ (od = ""))
    (hf : fetch r = Except.ok content) :
    (∀ c, custom = some c → ¬ (c = "") →
      download_file fetch cwd (some od) preserve custom r =
        Except.ok (joinPath od c)) ∧
    (custom = none → preserve = true →
      download_file fetch cwd (some od) preserve custom r =
        Except.ok (joinPath (joinPath od r.repository)
          (lstripSlashes r.filepath))) ∧
    (custom = none → preserve = false →
      download_file fetch cwd (some od) preserve custom r =
        Except.ok (joinPath od r.filename)) := by
  refine ⟨fun c hc hce => ?_, fun hc hp => ?_, fun hc hp => ?_⟩
  · subst hc
    unfold download_file
    rw [hf]
    unfold download_file_path basePath
    simp [hod, hce]
  · subst hc
    subst hp
    unfold download_file
    rw [hf]
    unfold download_file_path basePath
    simp [hod]
  · subst hc
    subst hp
    unfold download_file
    rw [hf]
    unfold download_file_path basePath
    simp [hod]

/-- A record used to exercise the path precedence cases. -/
def c7rec : FileResult :=
  ⟨"repo", none, "proj", "pid", "/a/b.txt", "main", none, "org", "b.txt"⟩

theorem c7_witness :
    download_file (fun _ => Except.ok "body") "/cwd" (some "/out") true
        (some "custom.txt") c7rec = Except.ok (joinPath "/out" "custom.txt") ∧
    download_file (fun _ => Except.ok "body") "/cwd" (some "/out") true
        none c7rec = Except.ok (joinPath (joinPath "/out" c7rec.repository)
          (lstripSlashes c7rec.filepath)) ∧
    download_file (fun _ => Except.ok "body") "/cwd" (some "/out") false
        none c7rec = Except.ok (joinPath "/out" c7rec.filename) := by
  have h1 := c7_save_path_precedence (fun _ => Except.ok "body") "/cwd" "/out"
    true (some "custom.txt") c7rec "body" (by decide) rfl
  have h2 := c7_save_path_precedence (fun _ => Except.ok "body") "/cwd" "/out"
    true none c7rec "body" (by decide) rfl
  have h3 := c7_save_path_precedence (fun _ => Except.ok "body") "/cwd" "/out"
    false none c7rec "body" (by decide) rfl
  exact ⟨h1.1 "custom.txt" rfl (by decide), h2.2.1 rfl rfl, h3.2.2 rfl rfl⟩

/-- C6: for every list of input records, `download_files` processes every
record (one key/value entry per record, no abort on failure), records a
failing record's entry as (its key, null) and a succeeding record's entry
as (its key, the path); the returned dict is the fold of these entries and
holds every record's key. -/
theorem c6_batch_failure_isolated
    (fetch : FileResult → Except String String) (cwd : String)
    (out : Option String) (preserve : Bool) (records : List FileResult) :
    (records.map (downloadEntry fetch cwd out preserve)).length =
      records.length ∧
    (∀ r, (∀ e, download_file fetch cwd out preserve none r = Except.error e →
        downloadEntry fetch cwd out preserve r = (fileResultStr r, none)) ∧
      (∀ p, download_file fetch cwd out preserve none r = Except.ok p →
        downloadEntry fetch cwd out preserve r = (fileResultStr r, some p))) ∧
    (download_files fetch cwd out preserve records =
      dictFold (fun r => fileResultStr r)
        (fun r => (downloadEntry fetch cwd out preserve r).2) records []) ∧
    (∀ r ∈ records,
      hasKey (download_files fetch cwd out preserve records)
        (fileResultStr r) = true) := by
  have hfold : download_files fetch cwd out preserve records =
      dictFold (fun r => fileResultStr r)
        (fun r => (downloadEntry fetch cwd out preserve r).2) records [] := rfl
  refine ⟨by simp, fun r => ⟨fun e he => ?_, fun p hp => ?_⟩, hfold,
    fun r hr => ?_⟩
  · unfold downloadEntry
    rw [he]
  · unfold downloadEntry
    rw [hp]
  · rw [hfold]
    exact dictFold_hasKey_of_mem (fun r => fileResultStr r)
      (fun r => (downloadEntry fetch cwd out preserve r).2) records [] r hr

/-- A record whose download fails under `c6fetch`. -/
def c6recA : FileResult :=
  ⟨"repoA", none, "proj", "pid", "/a.txt", "main", none, "org", "a.txt"⟩

/-- A record whose download succeeds under `c6fetch`. -/
def c6recB : FileResult :=
  ⟨"repoB", none, "proj", "pid", "/b.txt", "main", none, "org", "b.txt"⟩

/-- A fetch oracle failing exactly on `c6recA`. -/
def c6fetch : FileResult → Except String String := fun r =>
  if r.repository = "repoA" then Except.error "boom" else Except.ok "data"

theorem c6_witness :
    ([c6recA, c6recB].map
      (downloadEntry c6fetch "/cwd" (some "/out") true)).length = 2 ∧
    downloadEntry c6fetch "/cwd" (some "/out") true c6recA =
      (fileResultStr c6recA, none) ∧
    hasKey (download_files c6fetch "/cwd" (some "/out") true
      [c6recA, c6recB]) (fileResultStr c6recB) = true := by
  have h := c6_batch_failure_isolated c6fetch "/cwd" (some "/out") true
    [c6recA, c6recB]
  exact ⟨h.1,
    (h.2.1 c6recA).1 ("Failed to download " ++ "/a.txt" ++ ": " ++ "boom") rfl,
    h.2.2.2 c6recB (by simp)⟩

/-- C10: `download_files` keys its result dict by the record's textual
form; an input list holding two distinct records that share repository,
filepath and branch yields a dict with fewer entries than input records,
and the later record's outcome overwrites the earlier one's under their
shared key. -/
theorem c10_duplicate_key_overwrites
    (fetch : FileResult → Except String String) (cwd : String)
    (out : Option String) (preserve : Bool)
    (l1 l2 l3 : List FileResult) (r1 r2 : FileResult)
    (hrepo : r1.repository = r2.repository)
    (hpath : r1.filepath = r2.filepath)
    (hbranch : r1.branch = r2.branch)
    (_hne : ¬ (r1 = r2)) :
    (download_files fetch cwd out preserve
        (l1 ++ r1 :: (l2 ++ r2 :: l3))).length <
      (l1 ++ r1 :: (l2 ++ r2 :: l3)).length ∧
    ((∀ x ∈ l3, ¬ (fileResultStr x = fileResultStr r1)) →
      getValue (download_files fetch cwd out preserve
          (l1 ++ r1 :: (l2 ++ r2 :: l3))) (fileResultStr r1) =
        some (downloadEntry fetch cwd out preserve r2).2) := by
  have hkey : fileResultStr r1 = fileResultStr r2 := by
    unfold fileResultStr
    rw [hrepo, hpath, hbranch]
  have hfold : download_files fetch cwd out preserve
      (l1 ++ r1 :: (l2 ++ r2 :: l3)) =
      dictFold (fun r => fileResultStr r)
        (fun r => (downloadEntry fetch cwd out preserve r).2)
        (l1 ++ r1 :: (l2 ++ r2 :: l3)) [] := rfl
  have hsteps : dictFold (fun r => fileResultStr r)
      (fun r => (downloadEntry fetch cwd out preserve r).2)
      (l1 ++ r1 :: (l2 ++ r2 :: l3)) [] =
      dictFold (fun r => fileResultStr r)
        (fun r => (downloadEntry fetch cwd out preserve r).2) l3
        (setKey
          (dictFold (fun r => fileResultStr r)
            (fun r => (downloadEntry fetch cwd out preserve r).2) l2
            (setKey
              (dictFold (fun r => fileResultStr r)
                (fun r => (downloadEntry fetch cwd out preserve r).2) l1 [])
              (fileResultStr r1) (downloadEntry fetch cwd out preserve r1).2))
          (fileResultStr r2) (downloadEntry fetch cwd out preserve r2).2) := by
    rw [dictFold_append, dictFold_cons, dictFold_append, dictFold_cons]
  set kf : FileResult → String := fun r => fileResultStr r with hkf
  set vf : FileResult → Option String :=
    fun r => (downloadEntry fetch cwd out preserve r).2 with hvf
  set d1 := dictFold kf vf l1 [] with hd1
  set d2 := setKey d1 (fileResultStr r1) (vf r1) with hd2
  set d3 := dictFold kf vf l2 d2 with hd3
  set d4 := setKey d3 (fileResultStr r2) (vf r2) with hd4
  have hlen1 : d1.length ≤ l1.length := by
    simpa using dictFold_length_le kf vf l1 []
  have hlen2 : d2.length ≤ d1.length + 1 := by
    rw [hd2, length_setKey]
    split <;> omega
  have hk2 : hasKey d2 (fileResultStr r1) = true := by
    rw [hd2]
    exact hasKey_setKey_self d1 (fileResultStr r1) (vf r1)
  have hlen3 : d3.length ≤ d2.length + l2.length :=
    dictFold_length_le kf vf l2 d2
  have hk3 : hasKey d3 (fileResultStr r1) = true :=
    dictFold_hasKey_mono kf vf l2 d2 (fileResultStr r1) hk2
  have hk3b : hasKey d3 (fileResultStr r2) = true := by
    rw [← hkey]
    exact hk3
  have hlen4 : d4.length = d3.length := by
    rw [hd4, length_setKey, if_pos hk3b]
  have hlen5 : (dictFold kf vf l3 d4).length ≤ d4.length + l3.length :=
    dictFold_length_le kf vf l3 d4
  constructor
  · rw [hfold, hsteps]
    simp only [List.length_append, List.length_cons]
    omega
  · intro h3
    rw [hfold, hsteps]
    rw [dictFold_getValue_of_forall_ne kf vf l3 d4 (fileResultStr r1) h3]
    rw [hd4, ← hkey]
    exact getValue_setKey_self d3 (fileResultStr r1) (vf r2)

/-- Duplicate of `c10recB` up to the filename field. -/
def c10recA : FileResult :=
  ⟨"repo", none, "proj", "pid", "/dup.txt", "main", none, "org", "first"⟩

/-- Duplicate of `c10recA` up to the filename field. -/
def c10recB : FileResult :=
  ⟨"repo", none, "proj", "pid", "/dup.txt", "main", none, "org", "second"⟩

theorem c10_witness :
    (download_files (fun _ => Except.error "x") "/cwd" (some "/out") true
        [c10recA, c10recB]).length < 2 ∧
    getValue (download_files (fun _ => Except.error "x") "/cwd" (some "/out")
        true [c10recA, c10recB]) (fileResultStr c10recA) =
      some (downloadEntry (fun _ => Except.error "x") "/cwd" (some "/out")
        true c10recB).2 := by
  have h := c10_duplicate_key_overwrites (fun _ => Except.error "x") "/cwd"
    (some "/out") true [] [] [] c10recA c10recB rfl rfl rfl (by decide)
  exact ⟨h.1, h.2 (by simp)⟩

/-- Every outcome tuple carries its input record in the first slot. -/
theorem download_single_file_fst (fetch : FileResult → Except String String)
    (sha256hex : String → String) (output_dir : String) (r : FileResult) :
    (download_single_file fetch sha256hex output_dir r).1 = r := by
  unfold download_single_file
  cases fetch r <;> rfl

/-- The collection loop partitions the outcome list: lengths add up and the
records are preserved as a multiset. -/
theorem outcomes_partition (outs : List Outcome) :
    (outs.filterMap okOutcome).length + (outs.filterMap errOutcome).length =
      outs.length ∧
    ((outs.filterMap okOutcome).map (fun t => t.1) ++
      (outs.filterMap errOutcome).map (fun t => t.1)).Perm
      (outs.map (fun o => o.1)) := by
  induction outs with
  | nil => simp
  | cons o t ih =>
    obtain ⟨fr, p, hsh, err⟩ := o
    cases err with
    | none =>
      refine ⟨?_, ?_⟩
      · simp only [List.filterMap_cons, okOutcome, errOutcome,
          List.length_cons]
        omega
      · simp only [List.filterMap_cons, okOutcome, errOutcome, List.map_cons,
          List.cons_append]
        exact ih.2.cons fr
    | some e =>
      refine ⟨?_, ?_⟩
      · simp only [List.filterMap_cons, okOutcome, errOutcome,
          List.length_cons]
        omega
      · simp only [List.filterMap_cons, okOutcome, errOutcome, List.map_cons]
        exact (List.perm_middle.trans (ih.2.cons fr))

/-- C2: for every list of N input records and any completion order of the
parallel downloads, the orchestrator produces exactly N outcome tuples in
total (successes plus failures), with no record dropped or duplicated;
each record's outcome is (record, path, hashPrefix, null) on success and
(record, null, null, errorMessage) on failure. -/
theorem c2_parallel_outcomes_complete
    (fetch : FileResult → Except String String) (sha256hex : String → String)
    (output_dir : String) (records order : List FileResult)
    (hperm : order.Perm records) :
    ((download_files_parallel fetch sha256hex output_dir order).1.length +
      (download_files_parallel fetch sha256hex output_dir order).2.length =
        records.length) ∧
    (((download_files_parallel fetch sha256hex output_dir order).1.map
        (fun t => t.1) ++
      (download_files_parallel fetch sha256hex output_dir order).2.map
        (fun t => t.1)).Perm records) ∧
    (∀ r e, fetch r = Except.error e →
      download_single_file fetch sha256hex output_dir r =
        (r, none, none, some e)) ∧
    (∀ r c, fetch r = Except.ok c →
      download_single_file fetch sha256hex output_dir r =
        (r, some (joinPath output_dir
            (custom_filename_for ((sha256hex c).take 8) r)),
          some ((sha256hex c).take 8), none)) := by
  have hpart := outcomes_partition
    (order.map (download_single_file fetch sha256hex output_dir))
  have hfst : ((order.map (download_single_file fetch sha256hex output_dir)).map
      (fun o => o.1)) = order := by
    rw [List.map_map]
    have : ∀ x ∈ order,
        (download_single_file fetch sha256hex output_dir x).1 = x :=
      fun x _ => download_single_file_fst fetch sha256hex output_dir x
    calc (order.map fun x =>
          (download_single_file fetch sha256hex output_dir x).1)
        = order.map id := List.map_congr_left this
      _ = order := List.map_id order
  refine ⟨?_, ?_, fun r e he => ?_, fun r c hc => ?_⟩
  · have := hpart.1
    simpa [download_files_parallel, hperm.length_eq] using this
  · have h2 := hpart.2
    rw [hfst] at h2
    have h3 : ((download_files_parallel fetch sha256hex output_dir order).1.map
        (fun t => t.1) ++
      (download_files_parallel fetch sha256hex output_dir order).2.map
        (fun t => t.1)).Perm order := by
      simpa [download_files_parallel] using h2
    exact h3.trans hperm
  · unfold download_single_file
    rw [he]
  · unfold download_single_file
    rw [hc]

/-- A record fetched successfully in the parallel batch sample. -/
def c2recA : FileResult :=
  ⟨"my/repo", none, "proj", "pid", "/src/app.py", "main", none, "org",
   "app.py"⟩

/-- A record whose fetch fails in the parallel batch sample. -/
def c2recB : FileResult :=
  ⟨"other", none, "proj", "pid", "/x", "main", none, "org", "x"⟩

/-- A fetch oracle failing exactly on `c2recB`. -/
def c2fetch : FileResult → Except String String := fun r =>
  if r.repository = "other" then Except.error "timeout" else Except.ok "body"

theorem c2_witness :
    ((download_files_parallel c2fetch (fun _ => "abcd1234efgh") "/out"
        [c2recB, c2recA]).1.length +
      (download_files_parallel c2fetch (fun _ => "abcd1234efgh") "/out"
        [c2recB, c2recA]).2.length = 2) ∧
    download_single_file c2fetch (fun _ => "abcd1234efgh") "/out" c2recB =
      (c2recB, none, none, some "timeout") := by
  have h := c2_parallel_outcomes_complete c2fetch (fun _ => "abcd1234efgh")
    "/out" [c2recA, c2recB] [c2recB, c2recA] (by decide)
  exact ⟨h.1, h.2.2.1 c2recB "timeout" rfl⟩

theorem dropWhile_cons_head (p : α → Bool) :
    ∀ (l : List α) (hd : α) (t : List α), l.dropWhile p = hd :: t →
      p hd = false := by
  intro l
  induction l with
  | nil =>
    intro hd t h
    simp [List.dropWhile] at h
  | cons a l ih =>
    intro hd t h
    by_cases ha : p a
    · simp only [List.dropWhile, ha] at h
      exact ih hd t h
    · have ha' : p a = false := by simpa using ha
      simp only [List.dropWhile, ha'] at h
      cases h
      exact ha'

/-- `rsplitDot` agrees with the spec-side last-extension split: it returns
`none` exactly when the string has no dot, and otherwise the part before
and after the last dot. -/
theorem rsplitDot_spec (s : String) :
    (¬ ('.' ∈ s.toList) → rsplitDot s = none) ∧
    ('.' ∈ s.toList →
      rsplitDot s = some (withoutLastExtension s, lastExtension s)) := by
  rcases hdw : s.toList.reverse.dropWhile notDot with _ | ⟨hd, nameRev⟩
  · have hall := List.dropWhile_eq_nil_iff.mp hdw
    constructor
    · intro _
      unfold rsplitDot
      simp only [hdw]
    · intro hmem
      have hcontra := hall '.' (List.mem_reverse.mpr hmem)
      simp [notDot] at hcontra
  · have hhd : notDot hd = false := dropWhile_cons_head notDot _ hd nameRev hdw
    have hd_eq : hd = '.' := by
      simpa [notDot] using hhd
    subst hd_eq
    have hmem : '.' ∈ s.toList := by
      have hsub : List.Sublist (s.toList.reverse.dropWhile notDot)
          s.toList.reverse :=
        List.dropWhile_sublist notDot
      have hmem0 : '.' ∈ s.toList.reverse :=
        hsub.subset (hdw.symm ▸ List.mem_cons_self '.' nameRev)
      exact List.mem_reverse.mp hmem0
    constructor
    · intro hn
      exact absurd hmem hn
    · intro _
      unfold rsplitDot withoutLastExtension lastExtension
      simp only [hdw, List.drop_succ_cons, List.drop_zero]

/-- The claim's first concrete example: filename "app.py" in "my/repo". -/
def c3app : FileResult :=
  ⟨"my/repo", none, "proj", "pid", "/src/app.py", "main", none, "org",
   "app.py"⟩

/-- The claim's second concrete example: extensionless "Dockerfile". -/
def c3docker : FileResult :=
  ⟨"my/repo", none, "proj", "pid", "/Dockerfile", "main", none, "org",
   "Dockerfile"⟩

/-- C3 amended: the destination filename equals the claim's formula applied
to the repository and to the filename with its slashes replaced by
underscores (the code sanitises the filename too); the claim's two
concrete examples hold as stated. -/
theorem c3_dest_filename (r : FileResult) (hashPref : String) :
    (custom_filename_for hashPref r =
      claimDestFilename r.repository (replaceSlashes r.filename) hashPref) ∧
    custom_filename_for "abcd1234" c3app = "my_repo__app__abcd1234.py" ∧
    custom_filename_for "abcd1234" c3docker =
      "my_repo__Dockerfile__abcd1234" := by
  refine ⟨?_, rfl, rfl⟩
  by_cases hdot : '.' ∈ (replaceSlashes r.filename).toList
  · simp only [custom_filename_for, claimDestFilename,
      (rsplitDot_spec (replaceSlashes r.filename)).2 hdot, if_pos hdot]
  · simp only [custom_filename_for, claimDestFilename,
      (rsplitDot_spec (replaceSlashes r.filename)).1 hdot, if_neg hdot]

/-- A record whose filename contains a slash. -/
def c3slash : FileResult :=
  ⟨"r", none, "proj", "pid", "/d/a/b.py", "main", none, "org", "a/b.py"⟩

/-- C3 counterexample: for filename "a/b.py" the code produces
"r__a_b__abcd1234.py" (slashes in the filename are replaced too), while the
claim's formula predicts "r__a/b__abcd1234.py". -/
theorem c3_counterexample :
    custom_filename_for "abcd1234" c3slash = "r__a_b__abcd1234.py" ∧
    claimDestFilename c3slash.repository c3slash.filename "abcd1234" =
      "r__a/b__abcd1234.py" ∧
    ¬ (custom_filename_for "abcd1234" c3slash =
        claimDestFilename c3slash.repository c3slash.filename "abcd1234") := by
  refine ⟨rfl, rfl, by decide⟩

/-- A record with a present-but-empty repository id. -/
def c1sample : FileResult :=
  ⟨"myrepo", some "", "proj", "pid", "/f.txt", "main", none, "org", "f.txt"⟩

/-- C1 counterexample: for a record whose repository_id is the empty string
(non-null), the claim predicts the identifier segment holds the
repository_id, but the URL produced by the code holds the repository name. -/
theorem c1_counterexample :
    c1sample.repository_id = some "" ∧
    claimRepoIdentifier c1sample = "" ∧
    get_download_url c1sample "7.1" =
      "https://dev.azure.com/org/proj/_apis/git/repositories/myrepo/items?path=/f.txt&versionDescriptor.version=main&includeContent=true&api-version=7.1" ∧
    ¬ (get_download_url c1sample "7.1" =
      "https://dev.azure.com/" ++ c1sample.organization ++ "/" ++
        c1sample.project ++ "/" ++ "_apis/git/repositories/" ++
        claimRepoIdentifier c1sample ++ "/items" ++ "?path=" ++
        c1sample.filepath ++ "&versionDescriptor.version=" ++
        c1sample.branch ++ "&includeContent=true" ++ "&api-version=" ++
        "7.1") := by
  refine ⟨rfl, rfl, rfl, by decide⟩

/-- C1 amended: the URL contains the four query parameters, and the
repository identifier segment is repository_id whenever repository_id is
non-null and non-empty, and the repository name otherwise (i.e., also when
repository_id is the empty string). -/
theorem c1_url_parameters_and_identifier (r : FileResult) (v : String) :
    containsStr (get_download_url r v) ("?path=" ++ r.filepath) ∧
    containsStr (get_download_url r v)
      ("&versionDescriptor.version=" ++ r.branch) ∧
    containsStr (get_download_url r v) "&includeContent=true" ∧
    containsStr (get_download_url r v) ("&api-version=" ++ v) ∧
    containsStr (get_download_url r v)
      ("/git/repositories/" ++ repoIdentifier r ++ "/items") ∧
    (∀ s, r.repository_id = some s → ¬ (s = "") → repoIdentifier r = s) ∧
    (r.repository_id = none → repoIdentifier r = r.repository) ∧
    (r.repository_id = some "" → repoIdentifier r = r.repository) := by
  refine ⟨?_, ?_, ?_, ?_, ?_, fun s hs hse => ?_, fun hn => ?_, fun he => ?_⟩
  · refine ⟨"https://dev.azure.com/" ++ r.organization ++ "/" ++ r.project ++
      "/" ++ "_apis/git/repositories/" ++ repoIdentifier r ++ "/items",
      "&versionDescriptor.version=" ++ r.branch ++ "&includeContent=true" ++
      "&api-version=" ++ v, ?_⟩
    unfold get_download_url
    simp [String.append_assoc]
    rw [append_split "/items" "?path=" "/items?path=" rfl]
  · refine ⟨"https://dev.azure.com/" ++ r.organization ++ "/" ++ r.project ++
      "/" ++ "_apis/git/repositories/" ++ repoIdentifier r ++ "/items" ++
      "?path=" ++ r.filepath,
      "&includeContent=true" ++ "&api-version=" ++ v, ?_⟩
    unfold get_download_url
    simp [String.append_assoc]
  · refine ⟨"https://dev.azure.com/" ++ r.organization ++ "/" ++ r.project ++
      "/" ++ "_apis/git/repositories/" ++ repoIdentifier r ++ "/items" ++
      "?path=" ++ r.filepath ++ "&versionDescriptor.version=" ++ r.branch,
      "&api-version=" ++ v, ?_⟩
    unfold get_download_url
    simp [String.append_assoc]
    rw [append_split "&includeContent=true" "&api-version="
      "&includeContent=true&api-version=" rfl]
  · refine ⟨"https://dev.azure.com/" ++ r.organization ++ "/" ++ r.project ++
      "/" ++ "_apis/git/repositories/" ++ repoIdentifier r ++ "/items" ++
      "?path=" ++ r.filepath ++ "&versionDescriptor.version=" ++ r.branch ++
      "&includeContent=true", "", ?_⟩
    unfold get_download_url
    simp [String.append_assoc]
    rw [append_split "&includeContent=true" "&api-version="
      "&includeContent=true&api-version=" rfl]
  · refine ⟨"https://dev.azure.com/" ++ r.organization ++ "/" ++ r.project ++
      "/" ++ "_apis", "?path=" ++ r.filepath ++
      "&versionDescriptor.version=" ++ r.branch ++ "&includeContent=true" ++
      "&api-version=" ++ v, ?_⟩
    unfold get_download_url
    simp [String.append_assoc]
    rw [append_split "/_apis" "/git/repositories/" "/_apis/git/repositories/"
      rfl, append_split "/items" "?path=" "/items?path=" rfl]
  · unfold repoIdentifier
    rw [hs]
    simp [hse]
  · unfold repoIdentifier
    rw [hn]
  · unfold repoIdentifier
    rw [he]
    simp

/-- A record with a non-empty repository id. -/
def c1rec : FileResult :=
  ⟨"name", some "guid", "proj", "pid", "/p.txt", "dev", none, "org", "p.txt"⟩

theorem c1_witness :
    containsStr (get_download_url c1rec "7.1") ("?path=" ++ c1rec.filepath) ∧
    containsStr (get_download_url c1rec "7.1") "&includeContent=true" ∧
    repoIdentifier c1rec = "guid" ∧
    repoIdentifier c1sample = c1sample.repository := by
  have h := c1_url_parameters_and_identifier c1rec "7.1"
  have h2 := c1_url_parameters_and_identifier c1sample "7.1"
  exact ⟨h.1, h.2.2.1, h.2.2.2.2.2.1 "guid" rfl (by decide),
    h2.2.2.2.2.2.2.2 rfl⟩

/-- C8: the mapping returned by `get_download_params` holds exactly the
four query parameters embedded in the URL returned by `get_download_url`
at its default API version "7.1", with the same values. -/
theorem c8_params_match_url (r : FileResult) :
    get_download_params r =
      [("path", r.filepath), ("versionDescriptor.version", r.branch),
       ("includeContent", "true"), ("api-version", "7.1")] ∧
    get_download_url r "7.1" =
      ("https://dev.azure.com/" ++ r.organization ++ "/" ++ r.project ++ "/" ++
        "_apis/git/repositories/" ++ repoIdentifier r ++ "/items") ++ "?" ++
      String.intercalate "&"
        ((get_download_params r).map (fun p => p.1 ++ "=" ++ p.2)) := by
  refine ⟨rfl, ?_⟩
  unfold get_download_url get_download_params
  simp [String.intercalate, String.intercalate.go, String.append_assoc]
  rw [← append_split "path" "=" "path=" rfl,
    ← append_split "/items?" "path=" "/items?path=" rfl,
    ← append_split "versionDescriptor.version" "="
      "versionDescriptor.version=" rfl,
    ← append_split "&" "versionDescriptor.version="
      "&versionDescriptor.version=" rfl]

end AzdoHarvest
